import Mathlib

/-!
Verification of the convex-hull batch pipeline in `generate_convex.py`.

The script reads STL meshes, flattens their triangle vertices into a point
cloud, deduplicates it with `np.unique(..., axis=0)` (which also sorts the
rows lexicographically), calls `scipy.spatial.ConvexHull`, resolves each hull
facet's indices back into the deduplicated point array, and writes the result.
A batch driver scans a directory for `.stl` files (case-insensitive), sorts
them, and derives each output path as `<stem><suffix>.stl` in the output
directory.

The embedding below models:
  * points as integer 3-vectors (deduplication uses exact equality, so the
    coordinate type only needs decidable equality and a linear order);
  * the filesystem as a record of existing directories and of files with
    their mesh contents;
  * `scipy.spatial.ConvexHull` as an abstract function producing either a
    list of facets (index triples) or an exception message;
  * Python `pathlib` / `os.path` name manipulation (`stem`, `suffix`,
    `dirname`, `/`-join, `os.makedirs`) on strings.
-/

/-- A 3D point with exact (integer) coordinates. -/
abbrev Point := Int × Int × Int

/-- A mesh triangle: three points. -/
abbrev Triangle := Point × Point × Point

/-- A hull facet: three indices into the deduplicated point array. -/
abbrev Simplex := Nat × Nat × Nat

/-! ## String helpers modelling Python semantics -/

/-- Lexicographic comparison of character lists by code point; this is how
Python compares strings, hence how `sorted` orders same-directory paths. -/
def charListLe : List Char → List Char → Bool
  | [], _ => true
  | _ :: _, [] => false
  | a :: as, b :: bs => if a = b then charListLe as bs else decide (a < b)

/-- Boolean string comparison used by the directory scanner's `sorted`. -/
def strLeb (a b : String) : Bool := charListLe a.data b.data

/-- The string order as a proposition. -/
def StrLe (a b : String) : Prop := strLeb a b = true

instance : DecidableRel StrLe := fun a b => instDecidableEqBool (strLeb a b) true

/-- Split a character list at the last occurrence of `sep`: returns the part
before and the part after that occurrence (separator excluded), or `none`
when `sep` does not occur. -/
def lastSplit (sep : Char) : List Char → Option (List Char × List Char)
  | [] => none
  | c :: cs =>
    match lastSplit sep cs with
    | some (b, a) => some (c :: b, a)
    | none => if c = sep then some ([], cs) else none

/-- Python `PurePath.suffix` of a file name: the extension from the last dot,
provided that dot is neither the first nor the last character; otherwise
the empty string. -/
def pySuffix (name : String) : String :=
  match lastSplit '.' name.data with
  | some (b, a) => if b ≠ [] ∧ a ≠ [] then String.mk ('.' :: a) else ""
  | none => ""

/-- Python `PurePath.stem` of a file name: the name with `pySuffix` removed. -/
def pyStem (name : String) : String :=
  match lastSplit '.' name.data with
  | some (b, a) => if b ≠ [] ∧ a ≠ [] then String.mk b else name
  | none => name

/-- Python `str.lower`, character by character (ASCII-faithful). -/
def strLower (s : String) : String := String.mk (s.data.map Char.toLower)

/-- The scanner's filter: `p.suffix.lower() == ".stl"`. -/
def isStlName (n : String) : Bool := strLower (pySuffix n) == ".stl"

/-- The directory scanner: keep entries whose extension is `.stl`
case-insensitively, in sorted order (`sorted(p for p in input_dir.iterdir()
if p.suffix.lower() == ".stl")`). -/
def stlFilter (entries : List String) : List String :=
  (entries.filter isStlName).insertionSort StrLe

/-- Python `Path(d) / n` rendered as a string: plain names are joined with a
slash, except that the current-directory paths `"."` and `""` disappear. -/
def pyJoin (d n : String) : String :=
  if d = "." ∨ d = "" then n else d ++ "/" ++ n

/-- Drop trailing `'/'` characters. -/
def rstripSlash (cs : List Char) : List Char :=
  (cs.reverse.dropWhile (fun c => c = '/')).reverse

/-- Python `os.path.dirname`: everything up to the last slash, with trailing
slashes stripped unless the head consists only of slashes; `""` when the
path contains no slash. -/
def dirname (p : String) : String :=
  match lastSplit '/' p.data with
  | none => ""
  | some (b, _) =>
    let head := b ++ ['/']
    if head.all (fun c => c = '/') then String.mk head else String.mk (rstripSlash head)

/-- Split a character list on `'/'` into path components. -/
def splitSlashAux : List Char → List Char → List (List Char)
  | [], acc => [acc.reverse]
  | c :: cs, acc =>
    if c = '/' then acc.reverse :: splitSlashAux cs [] else splitSlashAux cs (c :: acc)

/-- Path components of a string path. -/
def splitSlash (p : String) : List String :=
  (splitSlashAux p.data []).map String.mk

/-- Progressive joins of path components: the chain of directories that
`os.makedirs` / `Path.mkdir(parents=True)` creates for a path. -/
def joinAncestors : String → List String → List String
  | acc, [] => [acc]
  | acc, part :: rest => acc :: joinAncestors (acc ++ "/" ++ part) rest

/-- The directory path `p` together with all its ancestors. -/
def ancestorPaths (p : String) : List String :=
  match splitSlash p with
  | [] => [p]
  | first :: rest => joinAncestors first rest

/-! ## Filesystem model -/

instance : DecidableEq Triangle := fun a b => instDecidableEqProd a b

instance : DecidableEq (List Triangle) := fun a b => instDecidableEqList a b

instance : DecidableEq (String × List Triangle) := fun a b => instDecidableEqProd a b

instance : DecidableEq (List (String × List Triangle)) := fun a b => instDecidableEqList a b

/-- Filesystem state: the set of existing directories and the files on disk
with their mesh contents. -/
structure FS where
  dirs : List String
  files : List (String × List Triangle)

instance : DecidableEq FS := fun a b =>
  decidable_of_iff (a.dirs = b.dirs ∧ a.files = b.files)
    (by cases a; cases b; simp)

/-- Model of `os.makedirs(p, exist_ok=True)`: fails (raises
`FileNotFoundError`) on the empty path, otherwise creates `p` and all its
missing ancestors. -/
def makedirs (p : String) (fs : FS) : Option FS :=
  if p = "" then none
  else some { fs with dirs := p :: ancestorPaths p ++ fs.dirs }

/-- Model of `Path(p).mkdir(parents=True, exist_ok=True)`: `Path("")` is the
current directory, which always exists, so this never fails. -/
def pathMkdir (p : String) (fs : FS) : FS :=
  let q := if p = "" then "." else p
  { fs with dirs := q :: ancestorPaths q ++ fs.dirs }

/-- Does directory `d` exist? The current directory always does. -/
def dirExists (d : String) (fs : FS) : Bool :=
  let q := if d = "" then "." else d
  q == "." || fs.dirs.contains q

/-! ## Mesh pipeline -/

/-- Flatten all triangle vertices into a point cloud
(`original_mesh.vectors.reshape(-1, 3)`). -/
def flattenVertices (tris : List Triangle) : List Point :=
  tris.flatMap (fun t => [t.1, t.2.1, t.2.2])

/-- Lexicographic comparison of points, the row order used by
`np.unique(..., axis=0)`. -/
def ptLeb (p q : Point) : Bool :=
  decide (p.1 < q.1 ∨ p.1 = q.1 ∧ (p.2.1 < q.2.1 ∨ p.2.1 = q.2.1 ∧ p.2.2 ≤ q.2.2))

/-- The point order as a proposition. -/
def PtLe (p q : Point) : Prop := ptLeb p q = true

instance : DecidableRel PtLe := fun p q => instDecidableEqBool (ptLeb p q) true

/-- Model of `np.unique(points, axis=0)`: the distinct rows in ascending
lexicographic order. -/
def npUnique (ps : List Point) : List Point := (ps.insertionSort PtLe).dedup

/-- Resolve one hull facet's indices into point coordinates
(`vertices[simplex]`); `none` models an out-of-range index (an uncaught
`IndexError` in the source). -/
def resolveTri (vs : List Point) (s : Simplex) : Option Triangle :=
  match vs[s.1]?, vs[s.2.1]?, vs[s.2.2]? with
  | some a, some b, some c => some (a, b, c)
  | _, _, _ => none

/-- Resolve every facet of the hull, as the write-back loop over
`hull.simplices` does. -/
def resolveAll (vs : List Point) : List Simplex → Option (List Triangle)
  | [] => some []
  | s :: ss =>
    match resolveTri vs s, resolveAll vs ss with
    | some t, some ts => some (t :: ts)
    | _, _ => none

/-- Outcome of one `generate_convex_stl` call. `notFound`,
`insufficientGeometry` and `hullFailed` are normal (logged) returns;
`indexError` and `mkdirError` model exceptions that escape the function. -/
inductive GenResult
  | notFound
  | insufficientGeometry
  | hullFailed
  | indexError
  | mkdirError
  | written (tris : List Triangle)
  deriving DecidableEq

/-- Does this outcome correspond to an exception escaping the function? -/
def isUncaught : GenResult → Bool
  | .indexError => true
  | .mkdirError => true
  | _ => false

/-- Log line for a missing input file. -/
def notFoundLine (p : String) : String := s!"[WARN] File not found, skip: {p}"

/-- Log line after loading a mesh with `k` triangles. -/
def loadedLine (p : String) (k : Nat) : String := s!"[INFO] Loaded {p} with {k} triangles."

/-- Log line for fewer than 4 unique vertices. -/
def fewVertsLine (p : String) : String :=
  s!"[WARN] Not enough vertices to form a 3D convex hull: {p}"

/-- Log line for a failed hull computation, carrying the cause. -/
def hullFailLine (p e : String) : String :=
  s!"[ERROR] Failed to compute convex hull for {p}: {e}"

/-- Log line after saving the output mesh. -/
def savedLine (p : String) : String := s!"[INFO] Convex hull saved to {p}"

/-- Embedding of `generate_convex_stl(input_stl_path, output_stl_path)`.
`hull` abstracts `scipy.spatial.ConvexHull`: it either returns the facet
index triples (`hull.simplices`) or raises, carrying the exception text.
Returns the outcome, the updated filesystem and the printed log lines. -/
def generate_convex_stl (hull : List Point → Except String (List Simplex))
    (input_stl_path output_stl_path : String) (fs : FS) :
    GenResult × FS × List String :=
  match fs.files.lookup input_stl_path with
  | none => (.notFound, fs, [notFoundLine input_stl_path])
  | some tris =>
    if (npUnique (flattenVertices tris)).length < 4 then
      (.insufficientGeometry, fs,
        [loadedLine input_stl_path tris.length, fewVertsLine input_stl_path])
    else
      match hull (npUnique (flattenVertices tris)) with
      | .error e =>
        (.hullFailed, fs,
          [loadedLine input_stl_path tris.length, hullFailLine input_stl_path e])
      | .ok simplices =>
        match resolveAll (npUnique (flattenVertices tris)) simplices with
        | none => (.indexError, fs, [loadedLine input_stl_path tris.length])
        | some outTris =>
          match makedirs (dirname output_stl_path) fs with
          | none => (.mkdirError, fs, [loadedLine input_stl_path tris.length])
          | some fs1 =>
            (.written outTris,
              { fs1 with files := (output_stl_path, outTris) :: fs1.files },
              [loadedLine input_stl_path tris.length, savedLine output_stl_path])

/-- The default suffix of `batch_convex_hull_generation`. -/
def defaultSuffix : String := ".stl.convex"

/-- Output file name: `f"\x7bstem\x7d\x7bsuffix\x7d.stl"`. -/
def outName (stem sfx : String) : String := stem ++ sfx ++ ".stl"

/-- The (input path, output path) pairs the batch driver hands to
`generate_convex_stl`, given the entry names of the input directory. -/
def outputPairs (entries : List String) (input_directory output_dir sfx : String) :
    List (String × String) :=
  (stlFilter entries).map fun n =>
    (pyJoin input_directory n, pyJoin output_dir (outName (pyStem n) sfx))

/-- Outcome of the batch driver's scanning phase. -/
inductive BatchResult
  | fsError
  | noFiles
  | processed (pairs : List (String × String))
  deriving DecidableEq

/-- Embedding of `batch_convex_hull_generation(input_directory,
output_directory, suffix)` up to the per-file loop: the output directory is
created first (`mkdir(parents=True, exist_ok=True)`), then the input
directory is scanned — raising `fsError` if it does not exist — and the
per-file input/output path pairs are produced. `entryMap` abstracts
`Path.iterdir`, giving the entry names of each directory. -/
def batch_convex_hull_generation (fs : FS) (entryMap : String → List String)
    (input_directory : String) (output_directory : Option String)
    (sfx : String := defaultSuffix) : BatchResult × FS :=
  let output_dir := output_directory.getD input_directory
  let fs1 := pathMkdir output_dir fs
  if dirExists input_directory fs1 = false then (.fsError, fs1)
  else
    let stl_files := stlFilter (entryMap input_directory)
    if stl_files.isEmpty then (.noFiles, fs1)
    else (.processed (outputPairs (entryMap input_directory) input_directory output_dir sfx), fs1)

/-! ## Order properties of the comparisons -/

theorem charListLe_trans : ∀ as bs cs : List Char,
    charListLe as bs = true → charListLe bs cs = true → charListLe as cs = true
  | [], _, _, _, _ => rfl
  | _ :: _, [], _, h, _ => by simp [charListLe] at h
  | _ :: _, _ :: _, [], _, h => by simp [charListLe] at h
  | a :: as, b :: bs, c :: cs, h1, h2 => by
    by_cases hab : a = b
    · subst hab
      by_cases hbc : a = c
      · subst hbc
        simp only [charListLe, if_pos rfl] at h1 h2 ⊢
        exact charListLe_trans as bs cs h1 h2
      · simpa [charListLe, hbc] using h2
    · by_cases hbc : b = c
      · subst hbc
        simpa [charListLe, hab] using h1
      · have h1' : a < b := by
          simpa [charListLe, hab, decide_eq_true_eq] using h1
        have h2' : b < c := by
          simpa [charListLe, hbc, decide_eq_true_eq] using h2
        have hac : a < c := lt_trans h1' h2'
        simp [charListLe, ne_of_lt hac, hac]

theorem charListLe_total : ∀ as bs : List Char,
    charListLe as bs = true ∨ charListLe bs as = true
  | [], _ => .inl rfl
  | _ :: _, [] => .inr rfl
  | a :: as, b :: bs => by
    by_cases hab : a = b
    · subst hab
      simpa only [charListLe, if_pos rfl] using charListLe_total as bs
    · rcases lt_or_gt_of_ne hab with h | h
      · exact .inl (by simp [charListLe, hab, h])
      · exact .inr (by simp [charListLe, Ne.symm hab, h])

instance : IsTrans String StrLe :=
  ⟨fun a b c h1 h2 => charListLe_trans a.data b.data c.data h1 h2⟩

instance : IsTotal String StrLe :=
  ⟨fun a b => charListLe_total a.data b.data⟩

theorem ptLeb_trans : ∀ a b c : Point, ptLeb a b = true → ptLeb b c = true → ptLeb a c = true := by
  rintro ⟨a1, a2, a3⟩ ⟨b1, b2, b3⟩ ⟨c1, c2, c3⟩ h1 h2
  simp only [ptLeb, decide_eq_true_eq] at h1 h2 ⊢
  omega

theorem ptLeb_total : ∀ a b : Point, ptLeb a b = true ∨ ptLeb b a = true := by
  rintro ⟨a1, a2, a3⟩ ⟨b1, b2, b3⟩
  simp only [ptLeb, decide_eq_true_eq]
  omega

theorem ptLeb_antisymm : ∀ a b : Point, ptLeb a b = true → ptLeb b a = true → a = b := by
  rintro ⟨a1, a2, a3⟩ ⟨b1, b2, b3⟩ h1 h2
  simp only [ptLeb, decide_eq_true_eq] at h1 h2
  obtain ⟨e1, e2, e3⟩ : a1 = b1 ∧ a2 = b2 ∧ a3 = b3 := by omega
  simp [e1, e2, e3]

instance : IsTrans Point PtLe := ⟨fun a b c => ptLeb_trans a b c⟩

instance : IsTotal Point PtLe := ⟨fun a b => ptLeb_total a b⟩

instance : IsAntisymm Point PtLe := ⟨fun a b => ptLeb_antisymm a b⟩

/-! ## Properties of the deduplicated point cloud -/

theorem mem_npUnique {p : Point} {ps : List Point} : p ∈ npUnique ps ↔ p ∈ ps := by
  unfold npUnique
  rw [List.mem_dedup]
  exact (List.perm_insertionSort PtLe ps).mem_iff

theorem npUnique_nodup (ps : List Point) : (npUnique ps).Nodup := List.nodup_dedup _

theorem npUnique_sorted (ps : List Point) : List.Pairwise PtLe (npUnique ps) :=
  List.Pairwise.sublist (List.dedup_sublist _) (List.sorted_insertionSort PtLe ps)

theorem npUnique_ext {ps qs : List Point} (h : ∀ p, p ∈ ps ↔ p ∈ qs) :
    npUnique ps = npUnique qs :=
  List.eq_of_perm_of_sorted
    ((List.perm_ext_iff_of_nodup (npUnique_nodup ps) (npUnique_nodup qs)).2
      (fun a => by rw [mem_npUnique, mem_npUnique]; exact h a))
    (npUnique_sorted ps) (npUnique_sorted qs)

/-! ## Facet resolution stays inside the point cloud -/

theorem resolveTri_mem (vs : List Point) (s : Simplex) (t : Triangle)
    (h : resolveTri vs s = some t) : t.1 ∈ vs ∧ t.2.1 ∈ vs ∧ t.2.2 ∈ vs := by
  unfold resolveTri at h
  cases h1 : vs[s.1]? with
  | none => rw [h1] at h; cases h
  | some a =>
    cases h2 : vs[s.2.1]? with
    | none => rw [h1, h2] at h; cases h
    | some b =>
      cases h3 : vs[s.2.2]? with
      | none => rw [h1, h2, h3] at h; cases h
      | some c =>
        rw [h1, h2, h3] at h
        cases h
        exact ⟨List.getElem?_mem h1, List.getElem?_mem h2, List.getElem?_mem h3⟩

theorem resolveAll_mem : ∀ (vs : List Point) (ss : List Simplex) (ts : List Triangle),
    resolveAll vs ss = some ts → ∀ t ∈ ts, t.1 ∈ vs ∧ t.2.1 ∈ vs ∧ t.2.2 ∈ vs
  | _, [], _, h => by cases h; intro t ht; cases ht
  | vs, s :: ss, ts, h => by
    unfold resolveAll at h
    cases h1 : resolveTri vs s with
    | none => rw [h1] at h; cases h
    | some t0 =>
      cases h2 : resolveAll vs ss with
      | none => rw [h1, h2] at h; cases h
      | some ts0 =>
        rw [h1, h2] at h
        cases h
        intro t ht
        rcases List.mem_cons.1 ht with rfl | ht'
        · exact resolveTri_mem vs s t h1
        · exact resolveAll_mem vs ss ts0 h2 t ht'

/-! ## Shape lemmas for the single-file transform -/

theorem generate_notFound (hull : List Point → Except String (List Simplex))
    (inP outP : String) (fs : FS) (h : fs.files.lookup inP = none) :
    generate_convex_stl hull inP outP fs = (.notFound, fs, [notFoundLine inP]) := by
  unfold generate_convex_stl
  rw [h]

theorem generate_insufficient (hull : List Point → Except String (List Simplex))
    (inP outP : String) (fs : FS) (tris : List Triangle)
    (h : fs.files.lookup inP = some tris)
    (hlen : (npUnique (flattenVertices tris)).length < 4) :
    generate_convex_stl hull inP outP fs =
      (.insufficientGeometry, fs, [loadedLine inP tris.length, fewVertsLine inP]) := by
  unfold generate_convex_stl
  rw [h]
  simp only [if_pos hlen]

theorem generate_hullFailed (hull : List Point → Except String (List Simplex))
    (inP outP : String) (fs : FS) (tris : List Triangle) (e : String)
    (h : fs.files.lookup inP = some tris)
    (hlen : ¬ (npUnique (flattenVertices tris)).length < 4)
    (hh : hull (npUnique (flattenVertices tris)) = .error e) :
    generate_convex_stl hull inP outP fs =
      (.hullFailed, fs, [loadedLine inP tris.length, hullFailLine inP e]) := by
  unfold generate_convex_stl
  rw [h]
  simp only [if_neg hlen, hh]

theorem generate_mkdirError (hull : List Point → Except String (List Simplex))
    (inP outP : String) (fs : FS) (tris : List Triangle) (ss : List Simplex)
    (ts : List Triangle)
    (h : fs.files.lookup inP = some tris)
    (hlen : ¬ (npUnique (flattenVertices tris)).length < 4)
    (hh : hull (npUnique (flattenVertices tris)) = .ok ss)
    (hr : resolveAll (npUnique (flattenVertices tris)) ss = some ts)
    (hd : dirname outP = "") :
    generate_convex_stl hull inP outP fs =
      (.mkdirError, fs, [loadedLine inP tris.length]) := by
  unfold generate_convex_stl makedirs
  rw [h]
  simp only [if_neg hlen, hh, hr, if_pos hd]

theorem generate_written (hull : List Point → Except String (List Simplex))
    (inP outP : String) (fs : FS) (tris : List Triangle) (ss : List Simplex)
    (ts : List Triangle)
    (h : fs.files.lookup inP = some tris)
    (hlen : ¬ (npUnique (flattenVertices tris)).length < 4)
    (hh : hull (npUnique (flattenVertices tris)) = .ok ss)
    (hr : resolveAll (npUnique (flattenVertices tris)) ss = some ts)
    (hd : ¬ dirname outP = "") :
    generate_convex_stl hull inP outP fs =
      (.written ts,
        ⟨dirname outP :: ancestorPaths (dirname outP) ++ fs.dirs, (outP, ts) :: fs.files⟩,
        [loadedLine inP tris.length, savedLine outP]) := by
  unfold generate_convex_stl makedirs
  rw [h]
  simp only [if_neg hlen, hh, hr, if_neg hd]

theorem generate_indexError (hull : List Point → Except String (List Simplex))
    (inP outP : String) (fs : FS) (tris : List Triangle) (ss : List Simplex)
    (h : fs.files.lookup inP = some tris)
    (hlen : ¬ (npUnique (flattenVertices tris)).length < 4)
    (hh : hull (npUnique (flattenVertices tris)) = .ok ss)
    (hr : resolveAll (npUnique (flattenVertices tris)) ss = none) :
    generate_convex_stl hull inP outP fs =
      (.indexError, fs, [loadedLine inP tris.length]) := by
  unfold generate_convex_stl
  rw [h]
  simp only [if_neg hlen, hh, hr]

theorem generate_written_inv (hull : List Point → Except String (List Simplex))
    (inP outP : String) (fs : FS) (m ts : List Triangle)
    (h : fs.files.lookup inP = some m)
    (hw : (generate_convex_stl hull inP outP fs).1 = .written ts) :
    ∃ ss, hull (npUnique (flattenVertices m)) = .ok ss ∧
      resolveAll (npUnique (flattenVertices m)) ss = some ts := by
  by_cases hlen : (npUnique (flattenVertices m)).length < 4
  · rw [generate_insufficient hull inP outP fs m h hlen] at hw
    cases hw
  · cases hh : hull (npUnique (flattenVertices m)) with
    | error e =>
      rw [generate_hullFailed hull inP outP fs m e h hlen hh] at hw
      cases hw
    | ok ss =>
      cases hr : resolveAll (npUnique (flattenVertices m)) ss with
      | none =>
        rw [generate_indexError hull inP outP fs m ss h hlen hh hr] at hw
        cases hw
      | some ts0 =>
        by_cases hd : dirname outP = ""
        · rw [generate_mkdirError hull inP outP fs m ss ts0 h hlen hh hr hd] at hw
          cases hw
        · rw [generate_written hull inP outP fs m ss ts0 h hlen hh hr hd] at hw
          cases hw
          exact ⟨ss, rfl, hr⟩

/-! ## Decomposition lemmas for name splitting -/

theorem lastSplit_none : ∀ (sep : Char) (cs : List Char), lastSplit sep cs = none → sep ∉ cs
  | _, [], _ => by simp
  | sep, c :: cs, h => by
    unfold lastSplit at h
    cases hrec : lastSplit sep cs with
    | some p => rw [hrec] at h; cases h
    | none =>
      simp only [hrec] at h
      by_cases hc : c = sep
      · rw [if_pos hc] at h; cases h
      · simp only [List.mem_cons, not_or]
        exact ⟨fun e => hc e.symm, lastSplit_none sep cs hrec⟩

theorem lastSplit_some : ∀ (sep : Char) (cs b a : List Char),
    lastSplit sep cs = some (b, a) → cs = b ++ sep :: a ∧ sep ∉ a
  | _, [], _, _, h => by cases h
  | sep, c :: cs, b, a, h => by
    unfold lastSplit at h
    cases hrec : lastSplit sep cs with
    | some p =>
      obtain ⟨b0, a0⟩ := p
      simp only [hrec, Option.some.injEq, Prod.mk.injEq] at h
      obtain ⟨hb, ha⟩ := h
      subst hb
      subst ha
      obtain ⟨h1, h2⟩ := lastSplit_some sep cs b0 a0 hrec
      exact ⟨by rw [h1, List.cons_append], h2⟩
    | none =>
      simp only [hrec] at h
      by_cases hc : c = sep
      · rw [if_pos hc] at h
        cases h
        exact ⟨by rw [hc, List.nil_append], lastSplit_none sep cs hrec⟩
      · rw [if_neg hc] at h; cases h

theorem string_ext {s t : String} (h : s.data = t.data) : s = t := by
  cases s
  cases t
  exact congrArg String.mk h

/-- A name whose lower-cased `pySuffix` is `".stl"` splits as
`stem ++ '.' :: a` with the extension exactly four characters long. -/
theorem stl_name_decomp (n : String) (h : strLower (pySuffix n) = ".stl") :
    ∃ b a : List Char, n.data = b ++ '.' :: a ∧ b ≠ [] ∧
      (pyStem n).data = b ∧ (pySuffix n).data = '.' :: a ∧ a.length = 3 := by
  unfold pySuffix pyStem at *
  cases hls : lastSplit '.' n.data with
  | none =>
    simp only [hls] at h
    exact absurd h (by decide)
  | some p =>
    obtain ⟨b, a⟩ := p
    by_cases hba : b ≠ [] ∧ a ≠ []
    · simp only [hls, if_pos hba] at h ⊢
      have hd : ('.' :: a).map Char.toLower = ['.', 's', 't', 'l'] := by
        simpa [strLower] using congrArg String.data h
      have hlen : a.length = 3 := by
        have := congrArg List.length hd
        simpa using this
      obtain ⟨h1, _⟩ := lastSplit_some '.' n.data b a hls
      exact ⟨b, a, h1, hba.1, rfl, rfl, hlen⟩
    · simp only [hls, if_neg hba] at h
      exact absurd h (by decide)

/-- Splitting at a separator that occurs in neither left part is unique. -/
theorem append_sep_inj (sep : Char) :
    ∀ (xs ys xs' ys' : List Char), sep ∉ xs → sep ∉ xs' →
      xs ++ sep :: ys = xs' ++ sep :: ys' → xs = xs' ∧ ys = ys'
  | [], ys, [], ys', _, _, h => by
    simp only [List.nil_append, List.cons.injEq] at h
    exact ⟨rfl, h.2⟩
  | [], _, x' :: xs', _, _, h2, h => by
    simp only [List.nil_append, List.cons_append, List.cons.injEq] at h
    exact absurd (List.mem_cons.2 (.inl h.1)) h2
  | x :: xs, _, [], _, h1, _, h => by
    simp only [List.nil_append, List.cons_append, List.cons.injEq] at h
    exact absurd (List.mem_cons.2 (.inl h.1.symm)) h1
  | x :: xs, ys, x' :: xs', ys', h1, h2, h => by
    simp only [List.cons_append, List.cons.injEq] at h
    have h1' : sep ∉ xs := fun hx => h1 (List.mem_cons.2 (.inr hx))
    have h2' : sep ∉ xs' := fun hx => h2 (List.mem_cons.2 (.inr hx))
    obtain ⟨e1, e2⟩ := append_sep_inj sep xs ys xs' ys' h1' h2' h.2
    exact ⟨by rw [h.1, e1], e2⟩

/-- Joining slash-free names onto directories: distinct names give distinct
paths. -/
theorem pyJoin_ne (d1 n1 d2 n2 : String)
    (hn1 : '/' ∉ n1.data) (hn2 : '/' ∉ n2.data) (hne : n1 ≠ n2) :
    pyJoin d1 n1 ≠ pyJoin d2 n2 := by
  unfold pyJoin
  by_cases h1 : d1 = "." ∨ d1 = "" <;> by_cases h2 : d2 = "." ∨ d2 = ""
  · simp only [if_pos h1, if_pos h2]
    exact hne
  · simp only [if_pos h1, if_neg h2]
    intro heq
    have hmem : '/' ∈ (d2 ++ "/" ++ n2).data := by
      simp [String.data_append]
    rw [← heq] at hmem
    exact hn1 hmem
  · simp only [if_neg h1, if_pos h2]
    intro heq
    have hmem : '/' ∈ (d1 ++ "/" ++ n1).data := by
      simp [String.data_append]
    rw [heq] at hmem
    exact hn2 hmem
  · simp only [if_neg h1, if_neg h2]
    intro heq
    have hdata : d1.data ++ '/' :: n1.data = d2.data ++ '/' :: n2.data := by
      have := congrArg String.data heq
      simpa [String.data_append] using this
    have hrev : n1.data.reverse ++ '/' :: d1.data.reverse =
        n2.data.reverse ++ '/' :: d2.data.reverse := by
      have := congrArg List.reverse hdata
      simpa using this
    obtain ⟨e1, _⟩ := append_sep_inj '/' _ _ _ _
      (by simpa using hn1) (by simpa using hn2) hrev
    exact hne (string_ext (by simpa using congrArg List.reverse e1))

/-! ## Scanner lemmas -/

theorem mem_stlFilter {n : String} {entries : List String} :
    n ∈ stlFilter entries ↔ n ∈ entries ∧ isStlName n = true := by
  unfold stlFilter
  rw [(List.perm_insertionSort StrLe _).mem_iff, List.mem_filter]

theorem stlFilter_sorted (entries : List String) :
    List.Pairwise StrLe (stlFilter entries) :=
  List.sorted_insertionSort StrLe _

/-! ## Concrete fixtures -/

/-- A tetrahedron mesh: four triangles over four affinely independent
vertices. -/
def tetraMesh : List Triangle :=
  [ ((0, 0, 0), (1, 0, 0), (0, 1, 0)),
    ((0, 0, 0), (1, 0, 0), (0, 0, 1)),
    ((0, 0, 0), (0, 1, 0), (0, 0, 1)),
    ((1, 0, 0), (0, 1, 0), (0, 0, 1)) ]

/-- The tetrahedron mesh with its triangles permuted and one duplicated:
same vertex set as `tetraMesh`. -/
def tetraMeshDup : List Triangle :=
  [ ((1, 0, 0), (0, 1, 0), (0, 0, 1)),
    ((0, 0, 0), (1, 0, 0), (0, 1, 0)),
    ((0, 0, 0), (1, 0, 0), (0, 0, 1)),
    ((0, 0, 0), (0, 1, 0), (0, 0, 1)),
    ((0, 0, 0), (1, 0, 0), (0, 1, 0)) ]

/-- Hull facets of the tetrahedron's (sorted, deduplicated) point cloud, as
the geometry library would report them. -/
def hullTetra : List Point → Except String (List Simplex) :=
  fun _ => .ok [(0, 1, 2), (0, 1, 3), (0, 2, 3), (1, 2, 3)]

/-- The output triangles obtained by resolving `hullTetra`'s facets. -/
def tetraOut : List Triangle :=
  [ ((0, 0, 0), (0, 0, 1), (0, 1, 0)),
    ((0, 0, 0), (0, 0, 1), (1, 0, 0)),
    ((0, 0, 0), (0, 1, 0), (1, 0, 0)),
    ((0, 0, 1), (0, 1, 0), (1, 0, 0)) ]

/-- A single-triangle mesh: only three unique vertices. -/
def triMesh : List Triangle := [((0, 0, 0), (1, 0, 0), (0, 1, 0))]

/-- Two triangles in the plane `z = 0`: four unique but coplanar vertices. -/
def flatMesh : List Triangle :=
  [ ((0, 0, 0), (1, 0, 0), (0, 1, 0)),
    ((1, 0, 0), (0, 1, 0), (1, 1, 0)) ]

/-- Hull model that raises, as the library does on degenerate input. -/
def hullRaise : List Point → Except String (List Simplex) :=
  fun _ => .error ("QhullError: initial simplex is flat")

/-- Filesystem holding the tetrahedron mesh. -/
def fsTetra : FS := ⟨[], [("in.stl", tetraMesh)]⟩

/-- Filesystem holding the single-triangle mesh. -/
def fsTri : FS := ⟨[], [("tri.stl", triMesh)]⟩

/-- Filesystem holding the coplanar mesh. -/
def fsFlat : FS := ⟨[], [("flat.stl", flatMesh)]⟩

/-- Filesystem holding the tetrahedron under the name `a.stl`. -/
def fsA : FS := ⟨[], [("a.stl", tetraMesh)]⟩

/-- Filesystem holding the permuted/duplicated tetrahedron as `a.stl`. -/
def fsB : FS := ⟨[], [("a.stl", tetraMeshDup)]⟩

/-- Empty filesystem. -/
def fs0 : FS := ⟨[], []⟩

/-- Directory listing with no entries. -/
def emEmpty : String → List String := fun _ => []

/-- Directory listing with no STL entries. -/
def emNoStl : String → List String := fun _ => ["readme.txt"]

/-- Directory listing with a single STL entry. -/
def emFoo : String → List String := fun _ => ["foo.stl"]

/-! ## Claims -/

/-- C1: whenever the input mesh is on disk and `generate_convex_stl` reaches
a successful write (`.written ts`), the output triangles are exactly the
resolution of the hull's facet index triples in the deduplicated point
array, and every vertex of every output triangle is a member of the input's
deduplicated vertex set. -/
theorem C1_output_vertices_in_dedup (hull : List Point → Except String (List Simplex))
    (inP outP : String) (fs : FS) (m ts : List Triangle)
    (h : fs.files.lookup inP = some m)
    (hw : (generate_convex_stl hull inP outP fs).1 = .written ts) :
    (∃ ss, hull (npUnique (flattenVertices m)) = .ok ss ∧
      resolveAll (npUnique (flattenVertices m)) ss = some ts) ∧
    ∀ t ∈ ts, t.1 ∈ npUnique (flattenVertices m) ∧
      t.2.1 ∈ npUnique (flattenVertices m) ∧ t.2.2 ∈ npUnique (flattenVertices m) := by
  obtain ⟨ss, hh, hr⟩ := generate_written_inv hull inP outP fs m ts h hw
  exact ⟨⟨ss, hh, hr⟩, resolveAll_mem _ ss ts hr⟩

/-- Witness for C1 on the tetrahedron fixture: the first output triangle's
vertices all belong to the deduplicated input vertex set. -/
theorem C1_witness :
    ((0, 0, 0) : Point) ∈ npUnique (flattenVertices tetraMesh) ∧
    ((0, 0, 1) : Point) ∈ npUnique (flattenVertices tetraMesh) ∧
    ((0, 1, 0) : Point) ∈ npUnique (flattenVertices tetraMesh) := by
  have h := C1_output_vertices_in_dedup hullTetra ("in.stl") ("d/out.stl") fsTetra
    tetraMesh tetraOut rfl (by decide)
  exact h.2 ((0, 0, 0), (0, 0, 1), (0, 1, 0)) (by decide)

/-- C3: with fewer than four deduplicated vertices the function returns the
`insufficientGeometry` outcome: the filesystem is untouched (no output file),
the warning line is printed, and no exception escapes, so a batch caller
continues with the next file. -/
theorem C3_insufficient_vertices (hull : List Point → Except String (List Simplex))
    (inP outP : String) (fs : FS) (m : List Triangle)
    (h : fs.files.lookup inP = some m)
    (hlen : (npUnique (flattenVertices m)).length < 4) :
    (generate_convex_stl hull inP outP fs).1 = .insufficientGeometry ∧
    (generate_convex_stl hull inP outP fs).2.1 = fs ∧
    isUncaught (generate_convex_stl hull inP outP fs).1 = false ∧
    fewVertsLine inP ∈ (generate_convex_stl hull inP outP fs).2.2 := by
  rw [generate_insufficient hull inP outP fs m h hlen]
  exact ⟨rfl, rfl, rfl, by simp⟩

/-- Witness for C3 on the three-vertex mesh. -/
theorem C3_witness :
    (generate_convex_stl hullTetra ("tri.stl") ("out/tri.stl") fsTri).1 = .insufficientGeometry ∧
    (generate_convex_stl hullTetra ("tri.stl") ("out/tri.stl") fsTri).2.1 = fsTri ∧
    isUncaught (generate_convex_stl hullTetra ("tri.stl") ("out/tri.stl") fsTri).1 = false ∧
    fewVertsLine ("tri.stl") ∈ (generate_convex_stl hullTetra ("tri.stl") ("out/tri.stl") fsTri).2.2 :=
  C3_insufficient_vertices hullTetra ("tri.stl") ("out/tri.stl") fsTri triMesh rfl (by decide)

/-- C4: when the hull library call raises, the exception is caught: the
outcome is `hullFailed`, the filesystem is untouched (no output file), the
error line carrying the underlying cause is printed, and nothing escapes to
abort a batch. -/
theorem C4_hull_failure_contained (hull : List Point → Except String (List Simplex))
    (inP outP : String) (fs : FS) (m : List Triangle) (e : String)
    (h : fs.files.lookup inP = some m)
    (hlen : ¬ (npUnique (flattenVertices m)).length < 4)
    (hh : hull (npUnique (flattenVertices m)) = .error e) :
    (generate_convex_stl hull inP outP fs).1 = .hullFailed ∧
    (generate_convex_stl hull inP outP fs).2.1 = fs ∧
    isUncaught (generate_convex_stl hull inP outP fs).1 = false ∧
    hullFailLine inP e ∈ (generate_convex_stl hull inP outP fs).2.2 := by
  rw [generate_hullFailed hull inP outP fs m e h hlen hh]
  exact ⟨rfl, rfl, rfl, by simp⟩

/-- Witness for C4 on the coplanar four-vertex mesh with a raising hull. -/
theorem C4_witness :
    (generate_convex_stl hullRaise ("flat.stl") ("out/flat.stl") fsFlat).1 = .hullFailed ∧
    (generate_convex_stl hullRaise ("flat.stl") ("out/flat.stl") fsFlat).2.1 = fsFlat ∧
    isUncaught (generate_convex_stl hullRaise ("flat.stl") ("out/flat.stl") fsFlat).1 = false ∧
    hullFailLine ("flat.stl") ("QhullError: initial simplex is flat") ∈
      (generate_convex_stl hullRaise ("flat.stl") ("out/flat.stl") fsFlat).2.2 :=
  C4_hull_failure_contained hullRaise ("flat.stl") ("out/flat.stl") fsFlat flatMesh
    ("QhullError: initial simplex is flat") rfl (by decide) rfl

/-- C2: each scheduled output file is named `stem ++ suffix ++ ".stl"`,
placed in the output directory; with input `part_007.stl` and suffix
`_convex` the output name is `part_007_convex.stl`; and the default suffix
is the literal `".stl.convex"`. -/
theorem C2_output_naming :
    (∀ (entries : List String) (ind odir sfx : String),
      outputPairs entries ind odir sfx =
        (stlFilter entries).map
          (fun n => (pyJoin ind n, pyJoin odir (pyStem n ++ sfx ++ ".stl")))) ∧
    outName (pyStem ("part_007.stl")) ("_convex") = "part_007_convex.stl" ∧
    defaultSuffix = ".stl.convex" :=
  ⟨fun _ _ _ _ => rfl, by decide, rfl⟩

/-- C5: the scanner selects exactly the entries whose extension is `.stl`
case-insensitively, in sorted order; and when nothing matches, the batch
run ends in the warned `noFiles` state with the file store unchanged (zero
output files) and no error. -/
theorem C5_scanner (entries : List String) (fs : FS) (entryMap : String → List String)
    (ind : String) (od : Option String) (sfx : String)
    (hnone : stlFilter (entryMap ind) = [])
    (hex : dirExists ind (pathMkdir (od.getD ind) fs) = true) :
    (∀ n, n ∈ stlFilter entries ↔ n ∈ entries ∧ strLower (pySuffix n) = ".stl") ∧
    List.Pairwise StrLe (stlFilter entries) ∧
    batch_convex_hull_generation fs entryMap ind od sfx =
      (.noFiles, pathMkdir (od.getD ind) fs) ∧
    (batch_convex_hull_generation fs entryMap ind od sfx).2.files = fs.files := by
  have hmem : ∀ n, n ∈ stlFilter entries ↔ n ∈ entries ∧ strLower (pySuffix n) = ".stl" := by
    intro n
    rw [mem_stlFilter]
    simp [isStlName]
  have hbatch : batch_convex_hull_generation fs entryMap ind od sfx =
      (.noFiles, pathMkdir (od.getD ind) fs) := by
    unfold batch_convex_hull_generation
    simp only [hex, Bool.true_eq_false, if_false, hnone, List.isEmpty_nil, if_true]
  refine ⟨hmem, stlFilter_sorted entries, hbatch, ?_⟩
  rw [hbatch]
  rfl

/-- Witness for C5: a directory listing with no STL entries leads to the
warned empty outcome and leaves the file store unchanged. -/
theorem C5_witness :
    batch_convex_hull_generation fs0 emNoStl ("d") none defaultSuffix =
      (.noFiles, pathMkdir ("d") fs0) ∧
    (batch_convex_hull_generation fs0 emNoStl ("d") none defaultSuffix).2.files = fs0.files :=
  ⟨(C5_scanner [] fs0 emNoStl ("d") none defaultSuffix (by decide) (by decide)).2.2.1,
   (C5_scanner [] fs0 emNoStl ("d") none defaultSuffix (by decide) (by decide)).2.2.2⟩

/-- C6: the single-file transform is deterministic: its outcome, including
the output triangle geometry, is a function of the deduplicated point cloud
of the input file's contents (and of the hull function and output path), so
repeated runs on the same input produce identical output geometry. -/
theorem C6_deterministic (hull : List Point → Except String (List Simplex))
    (inP outP : String) (fs fs' : FS) (m m' : List Triangle)
    (h : fs.files.lookup inP = some m) (h' : fs'.files.lookup inP = some m')
    (hv : npUnique (flattenVertices m) = npUnique (flattenVertices m')) :
    (generate_convex_stl hull inP outP fs).1 = (generate_convex_stl hull inP outP fs').1 := by
  by_cases hlen : (npUnique (flattenVertices m)).length < 4
  · have hlen' : (npUnique (flattenVertices m')).length < 4 := by rw [← hv]; exact hlen
    rw [generate_insufficient hull inP outP fs m h hlen,
        generate_insufficient hull inP outP fs' m' h' hlen']
  · have hlen' : ¬ (npUnique (flattenVertices m')).length < 4 := by rw [← hv]; exact hlen
    cases hh : hull (npUnique (flattenVertices m)) with
    | error e =>
      have hh' : hull (npUnique (flattenVertices m')) = .error e := by rw [← hv]; exact hh
      rw [generate_hullFailed hull inP outP fs m e h hlen hh,
          generate_hullFailed hull inP outP fs' m' e h' hlen' hh']
    | ok ss =>
      have hh' : hull (npUnique (flattenVertices m')) = .ok ss := by rw [← hv]; exact hh
      cases hr : resolveAll (npUnique (flattenVertices m)) ss with
      | none =>
        have hr' : resolveAll (npUnique (flattenVertices m')) ss = none := by
          rw [← hv]; exact hr
        rw [generate_indexError hull inP outP fs m ss h hlen hh hr,
            generate_indexError hull inP outP fs' m' ss h' hlen' hh' hr']
      | some ts =>
        have hr' : resolveAll (npUnique (flattenVertices m')) ss = some ts := by
          rw [← hv]; exact hr
        by_cases hd : dirname outP = ""
        · rw [generate_mkdirError hull inP outP fs m ss ts h hlen hh hr hd,
              generate_mkdirError hull inP outP fs' m' ss ts h' hlen' hh' hr' hd]
        · rw [generate_written hull inP outP fs m ss ts h hlen hh hr hd,
              generate_written hull inP outP fs' m' ss ts h' hlen' hh' hr' hd]

/-- Witness for C6: the tetrahedron and its permuted/duplicated variant have
the same deduplicated point cloud, hence identical outcomes. -/
theorem C6_witness :
    (generate_convex_stl hullTetra ("a.stl") ("d/out.stl") fsA).1 =
      (generate_convex_stl hullTetra ("a.stl") ("d/out.stl") fsB).1 :=
  C6_deterministic hullTetra ("a.stl") ("d/out.stl") fsA fsB tetraMesh tetraMeshDup
    rfl rfl (by decide)

/-- C7 counterexample: the empty suffix is accepted by the batch driver, and
with the default output directory the computed output path `d/foo.stl` is
exactly the input path, so the input file would be overwritten. -/
theorem C7_counterexample :
    (batch_convex_hull_generation fs0 emFoo ("d") none ("")).1 =
      .processed [(pyJoin ("d") ("foo.stl"), pyJoin ("d") ("foo.stl"))] ∧
    pyJoin ("d") (outName (pyStem ("foo.stl")) "") = pyJoin ("d") ("foo.stl") :=
  ⟨by decide, by decide⟩

/-- C7 (amended): provided the suffix is non-empty and free of the path
separator (directory entries are always slash-free names), the output path
computed for a file never equals that file's input path, for every choice of
input and output directory. -/
theorem C7_no_overwrite_amended (entries : List String) (ind odir sfx : String)
    (hsfx : sfx ≠ "") (hs : '/' ∉ sfx.data)
    (hent : ∀ n ∈ entries, '/' ∉ n.data) :
    ∀ pr ∈ outputPairs entries ind odir sfx, pr.2 ≠ pr.1 := by
  intro pr hpr
  obtain ⟨n, hn, rfl⟩ := List.mem_map.1 hpr
  have hmem := mem_stlFilter.1 hn
  have hstl : strLower (pySuffix n) = ".stl" := by
    have h2 := hmem.2
    unfold isStlName at h2
    exact eq_of_beq h2
  obtain ⟨b, a, hnd, hbne, hstem, hsfxd, halen⟩ := stl_name_decomp n hstl
  have hnslash : '/' ∉ n.data := hent n hmem.1
  have houtdata : (outName (pyStem n) sfx).data = b ++ (sfx.data ++ ['.', 's', 't', 'l']) := by
    show ((pyStem n ++ sfx) ++ (".stl" : String)).data = _
    rw [String.data_append, String.data_append, hstem, List.append_assoc]
  have hbslash : '/' ∉ b := fun hb => hnslash (by rw [hnd]; exact List.mem_append.2 (.inl hb))
  have houtslash : '/' ∉ (outName (pyStem n) sfx).data := by
    rw [houtdata]
    intro hmem2
    rcases List.mem_append.1 hmem2 with hb | hrest
    · exact hbslash hb
    · rcases List.mem_append.1 hrest with hsfx2 | hlit
      · exact hs hsfx2
      · simp at hlit
  have hsfxlen : 0 < sfx.data.length := by
    rcases Nat.eq_zero_or_pos sfx.data.length with h0 | h0
    · exact absurd (string_ext (List.length_eq_zero.1 h0)) hsfx
    · exact h0
  have hlen2 : (outName (pyStem n) sfx).data.length ≠ n.data.length := by
    rw [houtdata, hnd]
    simp only [List.length_append, List.length_cons]
    omega
  have hne : outName (pyStem n) sfx ≠ n := fun he => hlen2 (by rw [he])
  exact pyJoin_ne odir (outName (pyStem n) sfx) ind n houtslash hnslash hne

/-- Witness for the amended C7 with a non-empty slash-free suffix. -/
theorem C7_witness :
    ((pyJoin ("d") ("foo.stl"), pyJoin ("d") (outName (pyStem ("foo.stl")) ("_convex"))) :
       String × String).2 ≠
      (pyJoin ("d") ("foo.stl"), pyJoin ("d") (outName (pyStem ("foo.stl")) ("_convex"))).1 :=
  C7_no_overwrite_amended ["foo.stl"] ("d") ("d") ("_convex") (by decide) (by decide)
    (by decide) _ (by decide)

/-- C8 counterexample: the input directory `d` does not exist in the empty
filesystem, yet with the default output directory the run does not raise: the
output-directory `mkdir` creates `d` first, and the run ends with the
no-files warning. -/
theorem C8_counterexample :
    ("d" : String) ∉ fs0.dirs ∧
    (batch_convex_hull_generation fs0 emEmpty ("d") none defaultSuffix).1 = .noFiles :=
  ⟨by decide, by decide⟩

/-- C8 (amended): a missing input directory aborts the run exactly when the
preceding creation of the output directory did not itself create it: with an
explicit output directory that leaves the input directory non-existent the
run ends in `fsError`, while with the default output directory (equal to the
input directory) the scan never raises. -/
theorem C8_missing_input_dir (fs : FS) (entryMap : String → List String)
    (ind : String) (sfx : String) :
    (∀ o, dirExists ind (pathMkdir o fs) = false →
      (batch_convex_hull_generation fs entryMap ind (some o) sfx).1 = .fsError) ∧
    (batch_convex_hull_generation fs entryMap ind none sfx).1 ≠ .fsError := by
  constructor
  · intro o hex
    simp [batch_convex_hull_generation, hex]
  · have hex : dirExists ind (pathMkdir ind fs) = true := by
      unfold dirExists pathMkdir
      by_cases hi : ind = ""
      · simp [hi]
      · simp [hi, List.contains_cons]
    simp only [batch_convex_hull_generation, Option.getD_none, hex]
    by_cases hempty : (stlFilter (entryMap ind)).isEmpty
    · simp [hempty]
    · simp [hempty]

/-- Witness for the amended C8: a missing input directory raises with an
explicit distinct output directory and does not raise with the default. -/
theorem C8_witness :
    (batch_convex_hull_generation fs0 emEmpty ("d") (some ("out")) defaultSuffix).1 = .fsError ∧
    (batch_convex_hull_generation fs0 emEmpty ("d") none defaultSuffix).1 ≠ .fsError :=
  ⟨(C8_missing_input_dir fs0 emEmpty ("d") defaultSuffix).1 ("out") (by decide),
   (C8_missing_input_dir fs0 emEmpty ("d") defaultSuffix).2⟩

/-- C9 counterexample: for an output path with no directory component the
source calls `os.makedirs("", exist_ok=True)`, which raises
`FileNotFoundError`: nothing is written and the exception escapes, even
though the hull computation succeeded. -/
theorem C9_counterexample :
    (generate_convex_stl hullTetra ("in.stl") ("out.stl") fsTetra).1 = .mkdirError ∧
    (generate_convex_stl hullTetra ("in.stl") ("out.stl") fsTetra).2.1 = fsTetra ∧
    isUncaught (generate_convex_stl hullTetra ("in.stl") ("out.stl") fsTetra).1 = true :=
  ⟨by decide, by decide, by decide⟩

/-- C9 (amended): when the output path has a non-empty directory component,
a run that reaches the write step creates that directory (and its ancestors)
first and then writes the output mesh into it. -/
theorem C9_parent_dirs_created (hull : List Point → Except String (List Simplex))
    (inP outP : String) (fs : FS) (m ts : List Triangle) (ss : List Simplex)
    (h : fs.files.lookup inP = some m)
    (hlen : ¬ (npUnique (flattenVertices m)).length < 4)
    (hh : hull (npUnique (flattenVertices m)) = .ok ss)
    (hr : resolveAll (npUnique (flattenVertices m)) ss = some ts)
    (hd : ¬ dirname outP = "") :
    (generate_convex_stl hull inP outP fs).1 = .written ts ∧
    dirname outP ∈ (generate_convex_stl hull inP outP fs).2.1.dirs ∧
    (outP, ts) ∈ (generate_convex_stl hull inP outP fs).2.1.files := by
  rw [generate_written hull inP outP fs m ss ts h hlen hh hr hd]
  exact ⟨rfl, by simp, by simp⟩

/-- Witness for the amended C9 on the tetrahedron fixture with output
directory `d`. -/
theorem C9_witness :
    (generate_convex_stl hullTetra ("in.stl") ("d/out.stl") fsTetra).1 = .written tetraOut ∧
    dirname ("d/out.stl") ∈ (generate_convex_stl hullTetra ("in.stl") ("d/out.stl") fsTetra).2.1.dirs ∧
    (("d/out.stl" : String), tetraOut) ∈
      (generate_convex_stl hullTetra ("in.stl") ("d/out.stl") fsTetra).2.1.files :=
  C9_parent_dirs_created hullTetra ("in.stl") ("d/out.stl") fsTetra tetraMesh tetraOut
    [(0, 1, 2), (0, 1, 3), (0, 2, 3), (1, 2, 3)] rfl (by decide) rfl (by decide) (by decide)

/-- C10: the deduplicated point cloud is lexicographically sorted, and it
depends only on the set of distinct vertex coordinates: two meshes whose
flattened vertex lists have the same members (permutations or duplications)
yield identical point clouds. -/
theorem C10_dedup_sorted_extensional (m m1 m2 : List Triangle)
    (h1 : ∀ p ∈ flattenVertices m1, p ∈ flattenVertices m2)
    (h2 : ∀ p ∈ flattenVertices m2, p ∈ flattenVertices m1) :
    List.Pairwise PtLe (npUnique (flattenVertices m)) ∧
    npUnique (flattenVertices m1) = npUnique (flattenVertices m2) :=
  ⟨npUnique_sorted _, npUnique_ext (fun p => ⟨fun hp => h1 p hp, fun hp => h2 p hp⟩)⟩

/-- Witness for C10: the permuted/duplicated tetrahedron has the same point
cloud as the tetrahedron, and the latter's cloud is sorted. -/
theorem C10_witness :
    List.Pairwise PtLe (npUnique (flattenVertices tetraMesh)) ∧
    npUnique (flattenVertices tetraMeshDup) = npUnique (flattenVertices tetraMesh) :=
  C10_dedup_sorted_extensional tetraMesh tetraMeshDup tetraMesh (by decide) (by decide)
